import Mathlib

/-!
# Verification of the Netflix dashboard's filtering and aggregation core

This file is a shallow embedding, in Lean 4, of the data-handling core of
`netflix_streamlit.py`: the record schema loaded from the CSV, the sidebar
filter applied at lines 24-30, and the aggregations feeding each
visualization (`value_counts`, `nlargest`, `groupby` by year of
`date_added`, the two-key `groupby` for the heatmap, and `make_donut`).
Dataframes are embedded as ordered lists of records; pandas boolean-mask
filtering is `List.filter`; `value_counts` collects keys in first-appearance
order (pandas hashtable order) and stable-sorts them by descending count;
`groupby` sorts group keys ascending and drops missing keys.
-/

namespace NetflixStream

/-- A calendar date, as produced by `pd.to_datetime`; only the year is
consumed downstream (`dt.year`). -/
structure Date where
  year : Int
  month : Int
  day : Int
deriving DecidableEq

/-- One row of the loaded dataframe `df`.  `show_id` is the required unique
identifier; `type` (here `kind`, since `type` is reserved) and `country` are
categorical and may be missing (NaN); `release_year` is always present as an
integer in the source data; `date_added` is an optional date (NaT when
missing). -/
structure Record where
  show_id : String
  kind : Option String
  country : Option String
  release_year : Int
  date_added : Option Date
deriving DecidableEq

/-- The sidebar state: `selected_type` and `selected_country` from the two
selectboxes (the string "All" is the wildcard sentinel), and the inclusive
release-year range `(yearLo, yearHi)` from the slider. -/
structure FilterSpec where
  selectedType : String
  selectedCountry : String
  yearLo : Int
  yearHi : Int
deriving DecidableEq

/-- Lines 24-30 of `netflix_streamlit.py`:
`filtered_df = df.copy()`, then a `type` equality mask unless the selection
is "All", then a `country` equality mask unless "All", then the inclusive
year-range mask.  A NaN in `type`/`country` never equals a string selection,
so missing values fail the equality masks. -/
def applyFilters (s : FilterSpec) (df : List Record) : List Record :=
  let filtered_df := df
  let filtered_df :=
    if s.selectedType ≠ "All" then
      filtered_df.filter (fun r => r.kind = some s.selectedType)
    else filtered_df
  let filtered_df :=
    if s.selectedCountry ≠ "All" then
      filtered_df.filter (fun r => r.country = some s.selectedCountry)
    else filtered_df
  filtered_df.filter (fun r => s.yearLo ≤ r.release_year ∧ r.release_year ≤ s.yearHi)

/-- The spec's description of the filter, written from its words: a record
survives iff it satisfies all constraints simultaneously — `type` matches
exactly or the selection is the wildcard, likewise `country`, and the
release year lies in the inclusive range `[lo, hi]`. -/
def satisfiesAll (s : FilterSpec) (r : Record) : Prop :=
  (s.selectedType = "All" ∨ r.kind = some s.selectedType) ∧
  (s.selectedCountry = "All" ∨ r.country = some s.selectedCountry) ∧
  (s.yearLo ≤ r.release_year ∧ r.release_year ≤ s.yearHi)

instance (s : FilterSpec) : DecidablePred (satisfiesAll s) := fun _ =>
  inferInstanceAs (Decidable ((_ ∨ _) ∧ (_ ∨ _) ∧ (_ ∧ _)))

/-- The distinct elements of a list, in order of first appearance — the key
order a pandas hashtable produces before `value_counts` sorts by count. -/
def uniqueKeys {α : Type} [DecidableEq α] : List α → List α
  | [] => []
  | x :: xs => x :: (uniqueKeys xs).filter (fun y => decide (y ≠ x))

/-- The descending-by-count comparison `value_counts` sorts with; a stable
sort under this relation keeps equal counts in key first-appearance order,
matching the observed pandas tie behaviour. -/
def byCountDesc {α : Type} (a b : α × Nat) : Prop := b.2 ≤ a.2

instance {α : Type} : DecidableRel (byCountDesc (α := α)) := fun a b =>
  inferInstanceAs (Decidable (b.2 ≤ a.2))

instance {α : Type} : IsTotal (α × Nat) byCountDesc :=
  ⟨fun a b => Nat.le_total b.2 a.2⟩

instance {α : Type} : IsTrans (α × Nat) byCountDesc :=
  ⟨fun _ _ _ hab hbc => le_trans hbc hab⟩

/-- Stable sort of `(key, count)` pairs by descending count. -/
def sortByCountDesc {α : Type} (l : List (α × Nat)) : List (α × Nat) :=
  l.insertionSort byCountDesc

/-- `series.value_counts()` on a column extracted by `f`: missing (NaN)
values are dropped, each distinct value is paired with its number of
occurrences, and the pairs are ordered by descending count. -/
def valueCounts {α : Type} [DecidableEq α] (f : Record → Option α) (df : List Record) :
    List (α × Nat) :=
  let vals := df.filterMap f
  sortByCountDesc ((uniqueKeys vals).map (fun k => (k, vals.count k)))

/-- `series.nlargest(n)` with the default `keep='first'`: the `n` largest
entries by count, ties resolved in favour of earlier positions. -/
def nlargest {α : Type} (n : Nat) (l : List (α × Nat)) : List (α × Nat) :=
  (sortByCountDesc l).take n

/-- Line 38: `type_counts = df['type'].value_counts()`. -/
def type_counts (df : List Record) : List (String × Nat) :=
  valueCounts Record.kind df

/-- Line 43 generalized to any `n`:
`df['country'].value_counts().nlargest(n)`. -/
def country_counts_n (n : Nat) (df : List Record) : List (String × Nat) :=
  nlargest n (valueCounts Record.country df)

/-- Line 43: `country_counts = df['country'].value_counts().nlargest(10)`. -/
def country_counts (df : List Record) : List (String × Nat) :=
  country_counts_n 10 df

/-- Line 48: `df.groupby(df['date_added'].dt.year).count()['show_id']`.
Rows whose `date_added` is NaT produce a NaN key and are dropped by
`groupby`; group keys come out sorted ascending (`sort=True` default);
`show_id` is never null so the per-group `count` is the group size. -/
def time_data (df : List Record) : List (Int × Nat) :=
  let years := df.filterMap (fun r => r.date_added.map Date.year)
  ((uniqueKeys years).insertionSort (· ≤ ·)).map (fun y => (y, years.count y))

/-- Lexicographic ascending order on the `(release_year, country)` group
keys of the heatmap's two-key `groupby`. -/
def yearCountryLE (a b : Int × String) : Prop :=
  a.1 < b.1 ∨ (a.1 = b.1 ∧ a.2 ≤ b.2)

instance : DecidableRel yearCountryLE := fun _a _b =>
  inferInstanceAs (Decidable (_ ∨ _ ∧ _))

/-- Line 115: `df.groupby(['release_year', 'country']).size()`, reset to a
list of `((year, country), title_count)` rows.  Rows with a missing
`country` are dropped by `groupby`; keys are sorted ascending. -/
def heatmap_data (df : List Record) : List ((Int × String) × Nat) :=
  let pairs := df.filterMap (fun r => r.country.map (fun c => (r.release_year, c)))
  ((uniqueKeys pairs).insertionSort yearCountryLE).map (fun k => (k, pairs.count k))

/-- Everything the script hands to the presentation layer that depends on
the loaded data: the displayed table and the four aggregations. -/
structure Dashboard where
  filtered_df : List Record
  typeCounts : List (String × Nat)
  countryCounts : List (String × Nat)
  timeData : List (Int × Nat)
  heatmapData : List ((Int × String) × Nat)
deriving DecidableEq

/-- One run of the script on the loaded store `df` and sidebar state `s`:
lines 25-30 compute `filtered_df` (displayed at line 34), while lines 38,
43, 48 and 115 compute the four aggregations from `df` — the full store. -/
def runDashboard (df : List Record) (s : FilterSpec) : Dashboard :=
  { filtered_df := applyFilters s df
    typeCounts := type_counts df
    countryCounts := country_counts df
    timeData := time_data df
    heatmapData := heatmap_data df }

/-- Line 22's slider lower bound, `int(df['release_year'].min())`: `none`
on an empty store (where the Python expression would fail on NaN). -/
def minYear : List Record → Option Int
  | [] => none
  | r :: rs => some ((rs.map Record.release_year).foldl min r.release_year)

/-- Line 22's slider upper bound, `int(df['release_year'].max())`. -/
def maxYear : List Record → Option Int
  | [] => none
  | r :: rs => some ((rs.map Record.release_year).foldl max r.release_year)

/-- One Streamlit rerun at sidebar state `s`: line 25 starts from
`df.copy()`, so the store handed to the next rerun is `df` itself,
untouched, alongside the freshly computed view. -/
def rerun (df : List Record) (s : FilterSpec) : List Record × List Record :=
  (df, applyFilters s df)

/-- A session: the loaded store threaded through a sequence of sidebar
states, collecting each rerun's `filtered_df`. -/
def applySession : List Record → List FilterSpec → List Record × List (List Record)
  | df, [] => (df, [])
  | df, s :: rest =>
      let (df1, view) := rerun df s
      let (df2, views) := applySession df1 rest
      (df2, view :: views)

/-- The four named colour themes of `make_donut` (lines 80-85), as an
association list mirroring the Python dict. -/
def chart_colors : List (String × List String) :=
  [("blue", ["#29b5e8", "#155F7A"]),
   ("green", ["#27AE60", "#12783D"]),
   ("orange", ["#F39C12", "#875A12"]),
   ("red", ["#E74C3C", "#781F16"])]

/-- The value-carrying content of the chart `make_donut` returns: the
selected two-colour palette, the `(Topic, % value)` arcs of the foreground
ring, those of the background ring, and the centre label. -/
structure DonutChart where
  chart_color : List String
  arcs : List (String × Int)
  bg_arcs : List (String × Int)
  text : String
deriving DecidableEq

/-- Lines 79-108: `chart_colors.get(input_color, blue-palette)` never
fails — an unknown colour name falls back to the blue palette — and the
foreground arcs carry `[100 - input_response, input_response]`. -/
def make_donut (input_response : Int) (input_text : String) (input_color : String) :
    DonutChart :=
  let chart_color := (chart_colors.lookup input_color).getD ["#29b5e8", "#155F7A"]
  { chart_color := chart_color
    arcs := [("", 100 - input_response), (input_text, input_response)]
    bg_arcs := [("", 100), (input_text, 0)]
    text := toString input_response ++ " %" }

/-- The raw `date_added` cell of one CSV row before `pd.to_datetime`:
empty (NaN), a parseable date string, or a malformed string. -/
inductive RawDate where
  | missing : RawDate
  | valid : Date → RawDate
  | malformed : String → RawDate
deriving DecidableEq

/-- One row as `pd.read_csv` delivers it, before the date conversion. -/
structure RawRow where
  show_id : String
  kind : Option String
  country : Option String
  release_year : Int
  date_added : RawDate
deriving DecidableEq

/-- `pd.to_datetime` on one cell, with its default `errors='raise'`: NaN
becomes NaT (an explicit missing marker), a parseable string becomes the
parsed date, and a malformed string raises. -/
def to_datetime : RawDate → Except String (Option Date)
  | .missing => .ok none
  | .valid d => .ok (some d)
  | .malformed s => .error s

/-- Whether `pd.to_datetime` would raise on this cell. -/
def RawDate.failsParse : RawDate → Bool
  | .malformed _ => true
  | _ => false

/-- The record a raw row becomes when its date cell converts. -/
def toRecord (row : RawRow) (d : Option Date) : Record :=
  { show_id := row.show_id, kind := row.kind, country := row.country,
    release_year := row.release_year, date_added := d }

/-- Lines 8-11: `load_data` reads the rows and converts the whole
`date_added` column with `pd.to_datetime`; the conversion is columnar, so
the first raising cell fails the entire load. -/
def load_data (rows : List RawRow) : Except String (List Record) :=
  match rows with
  | [] => .ok []
  | row :: rest =>
    match to_datetime row.date_added, load_data rest with
    | .error e, _ => .error e
    | .ok _, .error e => .error e
    | .ok d, .ok recs => .ok (toRecord row d :: recs)

/-- What one raw row's date cell would become if row-level recovery were
in force: a parsed date when parseable, and the missing marker otherwise. -/
def parsedDate : RawDate → Option Date
  | .valid d => some d
  | _ => none

/-- Code-point-wise ascending comparison of character sequences — the
order Python's string comparison applies to keys. -/
def charsLe : List Char → List Char → Bool
  | [], _ => true
  | _ :: _, [] => false
  | a :: as, b :: bs =>
    if a.val < b.val then true
    else if b.val < a.val then false
    else charsLe as bs

/-- Ascending key order on strings, by their character sequences. -/
def strLeB (a b : String) : Bool := charsLe a.data b.data

/-- The ordering the specification words demand of top-N output: descending
count with ties broken by ascending key. -/
def byCountDescKeyAsc (a b : String × Nat) : Prop :=
  b.2 < a.2 ∨ (a.2 = b.2 ∧ strLeB a.1 b.1 = true)

instance : DecidableRel byCountDescKeyAsc := fun _a _b =>
  inferInstanceAs (Decidable (_ ∨ _ ∧ _))

/-- Top-N over the country column exactly as the specification words it:
sort the value counts by descending count breaking ties by ascending key,
then keep the first `n` entries. -/
def topNSpec (n : Nat) (df : List Record) : List (String × Nat) :=
  ((valueCounts Record.country df).insertionSort byCountDescKeyAsc).take n

/-- A small concrete store used by witness and counterexample theorems:
seven titles, five movies and two TV shows, with country first appearances
UK, IN, US and country counts UK:2, IN:2, US:3. -/
def sampleStore : List Record :=
  [{ show_id := "s1", kind := some "Movie", country := some "UK",
     release_year := 2014, date_added := some ⟨2018, 1, 5⟩ },
   { show_id := "s2", kind := some "Movie", country := some "UK",
     release_year := 2015, date_added := none },
   { show_id := "s3", kind := some "TV Show", country := some "IN",
     release_year := 2016, date_added := some ⟨2017, 6, 1⟩ },
   { show_id := "s4", kind := some "Movie", country := some "IN",
     release_year := 2017, date_added := some ⟨2018, 2, 14⟩ },
   { show_id := "s5", kind := some "Movie", country := some "US",
     release_year := 2015, date_added := some ⟨2016, 3, 3⟩ },
   { show_id := "s6", kind := some "TV Show", country := some "US",
     release_year := 2016, date_added := none },
   { show_id := "s7", kind := some "Movie", country := some "US",
     release_year := 2014, date_added := some ⟨2016, 9, 9⟩ }]

section FilterLemmas

/-- The three masks of `applyFilters` fuse into one pass over the store
testing the conjunction of all constraints. -/
lemma applyFilters_eq_filter (s : FilterSpec) (df : List Record) :
    applyFilters s df = df.filter (fun r => satisfiesAll s r) := by
  unfold applyFilters
  by_cases ht : s.selectedType = "All" <;>
    by_cases hc : s.selectedCountry = "All" <;>
      simp only [ht, hc, ne_eq, not_true_eq_false, not_false_eq_true, if_true, if_false,
        ite_true, ite_false, List.filter_filter] <;>
      refine List.filter_congr (fun r _ => ?_) <;>
      simp [satisfiesAll, ht, hc, Bool.and_assoc, Bool.and_comm, Bool.and_left_comm]

lemma applyFilters_sublist (s : FilterSpec) (df : List Record) :
    (applyFilters s df).Sublist df := by
  rw [applyFilters_eq_filter]; exact List.filter_sublist df

end FilterLemmas

section UniqueKeysLemmas

variable {α : Type} [DecidableEq α]

lemma mem_uniqueKeys {a : α} : ∀ {l : List α}, a ∈ uniqueKeys l ↔ a ∈ l
  | [] => Iff.rfl
  | x :: xs => by
    by_cases hax : a = x
    · subst hax; simp [uniqueKeys]
    · simp only [uniqueKeys, List.mem_cons, List.mem_filter]
      constructor
      · rintro (h | ⟨h, -⟩)
        · exact absurd h hax
        · exact Or.inr (mem_uniqueKeys.mp h)
      · rintro (h | h)
        · exact absurd h hax
        · exact Or.inr ⟨mem_uniqueKeys.mpr h, decide_eq_true hax⟩

lemma nodup_uniqueKeys : ∀ (l : List α), (uniqueKeys l).Nodup
  | [] => List.nodup_nil
  | x :: xs => by
    refine List.Nodup.cons ?_ ((nodup_uniqueKeys xs).filter _)
    intro hmem
    rcases List.mem_filter.mp hmem with ⟨-, hne⟩
    exact of_decide_eq_true hne rfl

/-- Splitting the sum of `f` over a duplicate-free list at a member `x`. -/
lemma sum_map_split_at_mem (f : α → Nat) :
    ∀ {l : List α}, l.Nodup → ∀ {x : α}, x ∈ l →
      (l.map f).sum = f x + ((l.filter (fun y => decide (y ≠ x))).map f).sum := by
  intro l
  induction l with
  | nil => intro _ x hx; cases hx
  | cons a t ih =>
    intro hnd x hx
    rcases List.nodup_cons.mp hnd with ⟨ha, hndt⟩
    rcases List.mem_cons.mp hx with hxa | hxt
    · subst hxa
      have ht : t.filter (fun y => decide (y ≠ x)) = t :=
        List.filter_eq_self.mpr (fun y hy => decide_eq_true (fun h => ha (h ▸ hy)))
      rw [List.filter_cons]
      have hx_self : (decide (x ≠ x)) = false := by simp
      rw [hx_self]
      simp only [Bool.false_eq_true, if_false, ht, List.map_cons, List.sum_cons]
    · have hax : ¬(a = x) := fun h => ha (h ▸ hxt)
      have hrec : (t.map f).sum = f x + ((t.filter (fun y => decide (y ≠ x))).map f).sum :=
        ih hndt hxt
      rw [List.filter_cons]
      have hda : (decide (a ≠ x)) = true := decide_eq_true hax
      rw [hda]
      simp only [if_true, List.map_cons, List.sum_cons, hrec]
      omega

/-- Counting every distinct element of a list with its multiplicity
accounts for every element exactly once. -/
lemma sum_counts_uniqueKeys : ∀ (l : List α),
    ((uniqueKeys l).map (fun k => l.count k)).sum = l.length := by
  intro l
  induction l with
  | nil => rfl
  | cons x xs ih =>
    simp only [uniqueKeys, List.map_cons, List.sum_cons]
    have hcx : (x :: xs).count x = xs.count x + 1 := by
      simp [List.count_cons]
    have hck : ∀ k ∈ (uniqueKeys xs).filter (fun y => decide (y ≠ x)),
        (x :: xs).count k = xs.count k := by
      intro k hk
      rcases List.mem_filter.mp hk with ⟨-, hne⟩
      have : k ≠ x := of_decide_eq_true hne
      simp [List.count_cons, this]
    have hmap : ((uniqueKeys xs).filter (fun y => decide (y ≠ x))).map
          (fun k => (x :: xs).count k) =
        ((uniqueKeys xs).filter (fun y => decide (y ≠ x))).map (fun k => xs.count k) :=
      List.map_congr_left hck
    rw [hcx, hmap]
    by_cases hx : x ∈ xs
    · have hsplit := sum_map_split_at_mem (fun k => xs.count k)
        (nodup_uniqueKeys xs) (mem_uniqueKeys.mpr hx)
      rw [ih] at hsplit
      simp only at hsplit
      simp only [List.length_cons]
      omega
    · have hfix : (uniqueKeys xs).filter (fun y => decide (y ≠ x)) = uniqueKeys xs :=
        List.filter_eq_self.mpr (fun y hy => decide_eq_true
          (fun h => hx (h ▸ mem_uniqueKeys.mp hy)))
      have hc0 : xs.count x = 0 := List.count_eq_zero.mpr hx
      rw [hfix, ih, hc0]
      simp only [List.length_cons]
      omega

end UniqueKeysLemmas

section SortLemmas

lemma sortByCountDesc_perm {α : Type} (l : List (α × Nat)) : (sortByCountDesc l).Perm l :=
  List.perm_insertionSort byCountDesc l

lemma sortByCountDesc_sorted {α : Type} (l : List (α × Nat)) :
    (sortByCountDesc l).Sorted byCountDesc :=
  List.sorted_insertionSort byCountDesc l

/-- In a descending-sorted list every element kept by `take n` dominates
every element of `drop n`. -/
lemma sorted_take_dominates {α : Type} {l : List (α × Nat)}
    (h : l.Sorted byCountDesc) (n : Nat) {p q : α × Nat}
    (hp : p ∈ l.take n) (hq : q ∈ l.drop n) : q.2 ≤ p.2 := by
  have hsplit : l.take n ++ l.drop n = l := List.take_append_drop n l
  rw [← hsplit] at h
  exact (List.pairwise_append.mp h).2.2 p hp q hq

end SortLemmas

section CountLemmas

/-- Counting a value in the non-missing cells of a column equals the number
of rows whose cell holds exactly that value. -/
lemma count_filterMap_eq_length_filter {α β : Type} [DecidableEq β]
    (g : α → Option β) (b : β) : ∀ (l : List α),
    (l.filterMap g).count b = (l.filter (fun a => decide (g a = some b))).length
  | [] => rfl
  | x :: xs => by
    rw [List.filterMap_cons, List.filter_cons]
    cases hgx : g x with
    | none =>
      simp only [hgx]
      have : (decide ((none : Option β) = some b)) = false := by simp
      rw [this]
      simp only [Bool.false_eq_true, if_false]
      exact count_filterMap_eq_length_filter g b xs
    | some c =>
      by_cases hcb : c = b
      · subst hcb
        simp only [hgx, List.count_cons, List.length_cons,
          count_filterMap_eq_length_filter g c xs]
        simp
      · have hd : (decide (some c = some b)) = false := by simp [hcb]
        simp only [hgx, hd, Bool.false_eq_true, if_false, List.count_cons,
          count_filterMap_eq_length_filter g b xs]
        simp [hcb]

lemma length_filterMap_eq_iff {α β : Type} (g : α → Option β) : ∀ (l : List α),
    ((l.filterMap g).length = l.length ↔ ∀ a ∈ l, (g a).isSome)
  | [] => by simp
  | x :: xs => by
    rw [List.filterMap_cons]
    cases hgx : g x with
    | none =>
      constructor
      · intro h
        exfalso
        have hle := List.length_filterMap_le g xs
        simp only [List.length_cons] at h
        omega
      · intro h
        exact absurd (h x (List.mem_cons_self x xs)) (by simp [hgx])
    | some c =>
      simp only [List.length_cons, List.mem_cons]
      constructor
      · intro h a ha
        rcases ha with rfl | ha
        · simp [hgx]
        · exact ((length_filterMap_eq_iff g xs).mp (by omega)) a ha
      · intro h
        have : (xs.filterMap g).length = xs.length :=
          (length_filterMap_eq_iff g xs).mpr (fun a ha => h a (Or.inr ha))
        omega

end CountLemmas

section MinMaxLemmas

lemma foldl_min_le_init (xs : List Int) (a : Int) : xs.foldl min a ≤ a := by
  induction xs generalizing a with
  | nil => exact le_refl a
  | cons x t ih => exact le_trans (ih (min a x)) (min_le_left a x)

lemma foldl_min_le_mem : ∀ (xs : List Int) (a : Int) {x : Int}, x ∈ xs →
    xs.foldl min a ≤ x
  | y :: t, a, x, hx => by
    rcases List.mem_cons.mp hx with h | h
    · subst h
      exact le_trans (foldl_min_le_init t (min a x)) (min_le_right a x)
    · exact foldl_min_le_mem t (min a y) h

lemma le_foldl_max_init (xs : List Int) (a : Int) : a ≤ xs.foldl max a := by
  induction xs generalizing a with
  | nil => exact le_refl a
  | cons x t ih => exact le_trans (le_max_left a x) (ih (max a x))

lemma le_foldl_max_mem : ∀ (xs : List Int) (a : Int) {x : Int}, x ∈ xs →
    x ≤ xs.foldl max a
  | y :: t, a, x, hx => by
    rcases List.mem_cons.mp hx with h | h
    · subst h
      exact le_trans (le_max_right a x) (le_foldl_max_init t (max a x))
    · exact le_foldl_max_mem t (max a y) h

lemma minYear_le_of_mem : ∀ {df : List Record} {lo : Int}, minYear df = some lo →
    ∀ {r : Record}, r ∈ df → lo ≤ r.release_year := by
  intro df lo h r hr
  cases df with
  | nil => cases hr
  | cons r0 rs =>
    have hlo : lo = (rs.map Record.release_year).foldl min r0.release_year := by
      simpa [minYear] using h.symm
    subst hlo
    rcases List.mem_cons.mp hr with h0 | hmem
    · subst h0; exact foldl_min_le_init _ _
    · exact foldl_min_le_mem _ _ (List.mem_map_of_mem Record.release_year hmem)

lemma le_maxYear_of_mem : ∀ {df : List Record} {hi : Int}, maxYear df = some hi →
    ∀ {r : Record}, r ∈ df → r.release_year ≤ hi := by
  intro df hi h r hr
  cases df with
  | nil => cases hr
  | cons r0 rs =>
    have hhi : hi = (rs.map Record.release_year).foldl max r0.release_year := by
      simpa [maxYear] using h.symm
    subst hhi
    rcases List.mem_cons.mp hr with h0 | hmem
    · subst h0; exact le_foldl_max_init _ _
    · exact le_foldl_max_mem _ _ (List.mem_map_of_mem Record.release_year hmem)

end MinMaxLemmas

section ValueCountsLemmas

lemma valueCounts_eq_sort {α : Type} [DecidableEq α] (f : Record → Option α)
    (df : List Record) :
    valueCounts f df =
      sortByCountDesc ((uniqueKeys (df.filterMap f)).map
        (fun k => (k, (df.filterMap f).count k))) := rfl

/-- The counts reported by `value_counts` add up to the number of rows with
a non-missing cell in the grouped column. -/
lemma sum_snd_valueCounts {α : Type} [DecidableEq α] (f : Record → Option α)
    (df : List Record) :
    ((valueCounts f df).map Prod.snd).sum = (df.filterMap f).length := by
  rw [valueCounts_eq_sort]
  have hperm := (sortByCountDesc_perm ((uniqueKeys (df.filterMap f)).map
      (fun k => (k, (df.filterMap f).count k)))).map Prod.snd
  rw [hperm.sum_eq, List.map_map]
  exact sum_counts_uniqueKeys _

end ValueCountsLemmas

/-- Claim C1: for every record store and every filter specification, the
filter returns exactly the ordered subsequence (sublist) of the store whose
records satisfy all constraints simultaneously — type matches or is the
wildcard, country matches or is the wildcard, and the release year lies in
the inclusive range — as captured by `satisfiesAll`. -/
theorem apply_filters_and_semantics (s : FilterSpec) (df : List Record) :
    applyFilters s df = df.filter (fun r => satisfiesAll s r) ∧
    (applyFilters s df).Sublist df :=
  ⟨applyFilters_eq_filter s df, applyFilters_sublist s df⟩

/-- Claim C2 fails on the code: the type-distribution aggregation delivered
to the presentation boundary is computed over the full store, not over the
view the Predicate Filter produced — witnessed on a concrete store and a
year-range specification that shrinks the view. -/
theorem type_counts_not_from_view :
    (runDashboard sampleStore ⟨"All", "All", 2015, 2016⟩).typeCounts ≠
      valueCounts Record.kind
        ((runDashboard sampleStore ⟨"All", "All", 2015, 2016⟩).filtered_df) := by
  decide

/-- Claim C2 (amended): only the displayed table flows through the
Predicate Filter; all four aggregation results delivered to the
presentation boundary are computed over the full record store, and are
therefore invariant under the filter specification. -/
theorem dashboard_aggregations_from_full_store (df : List Record) (s s' : FilterSpec) :
    (runDashboard df s).filtered_df = applyFilters s df ∧
    (runDashboard df s).typeCounts = type_counts df ∧
    (runDashboard df s).countryCounts = country_counts df ∧
    (runDashboard df s).timeData = time_data df ∧
    (runDashboard df s).heatmapData = heatmap_data df ∧
    (runDashboard df s).typeCounts = (runDashboard df s').typeCounts ∧
    (runDashboard df s).countryCounts = (runDashboard df s').countryCounts ∧
    (runDashboard df s).timeData = (runDashboard df s').timeData ∧
    (runDashboard df s).heatmapData = (runDashboard df s').heatmapData :=
  ⟨rfl, rfl, rfl, rfl, rfl, rfl, rfl, rfl, rfl⟩

/-- Claim C7: filtering an empty store yields the empty view, and a
specification matching no record of the store yields the empty view; in
both cases the filter returns a value rather than raising. -/
theorem apply_filters_empty_and_unmatched :
    (∀ s : FilterSpec, applyFilters s [] = []) ∧
    (∀ (s : FilterSpec) (df : List Record),
      (∀ r ∈ df, ¬ satisfiesAll s r) → applyFilters s df = []) := by
  refine ⟨fun s => by rw [applyFilters_eq_filter]; rfl, fun s df h => ?_⟩
  rw [applyFilters_eq_filter]
  exact List.filter_eq_nil_iff.mpr (fun r hr => by simpa using h r hr)

theorem apply_filters_empty_and_unmatched_witness :
    applyFilters ⟨"Documentary", "All", 2000, 2020⟩ sampleStore = [] :=
  apply_filters_empty_and_unmatched.2 ⟨"Documentary", "All", 2000, 2020⟩ sampleStore
    (by decide)

/-- Claim C8: the all-wildcard specification whose year range is the
store's full [min, max] range returns the store unchanged. -/
theorem apply_filters_wildcard_identity (df : List Record) (lo hi : Int)
    (hlo : minYear df = some lo) (hhi : maxYear df = some hi) :
    applyFilters ⟨"All", "All", lo, hi⟩ df = df := by
  rw [applyFilters_eq_filter]
  refine List.filter_eq_self.mpr (fun r hr => ?_)
  exact decide_eq_true
    ⟨Or.inl rfl, Or.inl rfl, minYear_le_of_mem hlo hr, le_maxYear_of_mem hhi hr⟩

theorem apply_filters_wildcard_identity_witness :
    applyFilters ⟨"All", "All", 2014, 2017⟩ sampleStore = sampleStore :=
  apply_filters_wildcard_identity sampleStore 2014 2017 (by decide) (by decide)

/-- Claim C9: the filter never mutates the store — a whole session of
reruns hands the original store back unchanged, and each rerun's view is a
function of the store and that rerun's specification alone, with no state
accumulating across reruns. -/
theorem apply_session_pure (df : List Record) (specs : List FilterSpec) :
    (applySession df specs).1 = df ∧
    (applySession df specs).2 = specs.map (fun s => applyFilters s df) := by
  induction specs with
  | nil => exact ⟨rfl, rfl⟩
  | cons s rest ih => simp [applySession, rerun, ih.1, ih.2]

/-- Claim C3's tie-break clause fails on the code: at the sample store the
countries UK and IN tie at two titles each; the claimed ordering
(descending count with ties by ascending key, `topNSpec`) keeps IN, but
`value_counts().nlargest(2)` keeps UK, whose first record appears earlier
in the store. -/
theorem top_n_tie_not_ascending :
    country_counts_n 2 sampleStore ≠ topNSpec 2 sampleStore ∧
    topNSpec 2 sampleStore = [("US", 3), ("IN", 2)] ∧
    country_counts_n 2 sampleStore = [("US", 3), ("UK", 2)] := by
  decide

/-- Claim C3 (amended): for every N ≥ 0 the top-N selection returns at most
N entries and every returned entry's count is at least every excluded
key's count; equal counts, however, are resolved by the keys' first
appearance in the store rather than by ascending key — at the sample store
the UK/IN tie is resolved in favour of UK, which appears first. -/
theorem top_n_bounds_and_dominance :
    (∀ (n : Nat) (df : List Record),
      (country_counts_n n df).length ≤ n ∧
      ∀ p ∈ country_counts_n n df, ∀ q ∈ valueCounts Record.country df,
        q.1 ∉ (country_counts_n n df).map Prod.fst → q.2 ≤ p.2) ∧
    country_counts_n 2 sampleStore = [("US", 3), ("UK", 2)] := by
  constructor
  · intro n df
    refine ⟨List.length_take_le n _, ?_⟩
    intro p hp q hq hnot
    have hq' : q ∈ sortByCountDesc (valueCounts Record.country df) :=
      (sortByCountDesc_perm _).mem_iff.mpr hq
    rw [← List.take_append_drop n (sortByCountDesc (valueCounts Record.country df)),
      List.mem_append] at hq'
    rcases hq' with hqt | hqd
    · exact absurd (List.mem_map_of_mem Prod.fst hqt) hnot
    · exact sorted_take_dominates (sortByCountDesc_sorted _) n hp hqd
  · decide

theorem top_n_bounds_and_dominance_witness : (2 : Nat) ≤ 3 :=
  (top_n_bounds_and_dominance.1 1 sampleStore).2 ("US", 3) (by decide)
    ("UK", 2) (by decide) (by decide)

/-- Claim C4: the counts of a single-key value-count result sum to at most
the number of records in the input view, with equality exactly when no
record of the view has a missing value on the grouped field — missing
values are excluded, never bucketed. -/
theorem value_counts_sum_le (f : Record → Option String) (df : List Record) :
    ((valueCounts f df).map Prod.snd).sum ≤ df.length ∧
    (((valueCounts f df).map Prod.snd).sum = df.length ↔ ∀ r ∈ df, (f r).isSome) := by
  rw [sum_snd_valueCounts]
  exact ⟨List.length_filterMap_le f df, length_filterMap_eq_iff f df⟩

theorem value_counts_sum_le_witness :
    ((valueCounts Record.kind sampleStore).map Prod.snd).sum = sampleStore.length :=
  (value_counts_sum_le Record.kind sampleStore).2.mpr (by decide)

/-- Claim C5: the time-bucketed aggregation groups records by the year of
`date_added`; its keys are strictly ascending, a year is a key exactly when
some record carrying a date has that year (records with a missing date are
excluded), and each bucket's count is the number of records whose date
falls in that year. -/
theorem time_data_buckets (df : List Record) :
    ((time_data df).map Prod.fst).Sorted (· < ·) ∧
    (∀ p ∈ time_data df,
      p.2 = (df.filter (fun r =>
        decide (r.date_added.map Date.year = some p.1))).length ∧ 0 < p.2) ∧
    (∀ y : Int, y ∈ (time_data df).map Prod.fst ↔
      ∃ r ∈ df, r.date_added.map Date.year = some y) := by
  have hfst : (time_data df).map Prod.fst =
      (uniqueKeys (df.filterMap (fun r => r.date_added.map Date.year))).insertionSort
        (· ≤ ·) := by
    simp only [time_data, List.map_map]
    exact (List.map_congr_left (fun y _ => rfl)).trans (List.map_id _)
  refine ⟨?_, ?_, ?_⟩
  · rw [hfst]
    have hsorted := List.sorted_insertionSort (α := Int) (· ≤ ·)
      (uniqueKeys (df.filterMap (fun r => r.date_added.map Date.year)))
    have hnd : ((uniqueKeys (df.filterMap (fun r =>
        r.date_added.map Date.year))).insertionSort (· ≤ ·)).Nodup :=
      (List.perm_insertionSort _ _).nodup_iff.mpr (nodup_uniqueKeys _)
    exact hsorted.lt_of_le hnd
  · intro p hp
    have hp' := hp
    simp only [time_data, List.mem_map] at hp'
    obtain ⟨y, hy, rfl⟩ := hp'
    constructor
    · exact count_filterMap_eq_length_filter (fun r => r.date_added.map Date.year) y df
    · have hyk : y ∈ df.filterMap (fun r => r.date_added.map Date.year) :=
        mem_uniqueKeys.mp ((List.perm_insertionSort _ _).mem_iff.mp hy)
      simpa using List.count_pos_iff.mpr hyk
  · intro y
    rw [hfst, (List.perm_insertionSort _ _).mem_iff, mem_uniqueKeys, List.mem_filterMap]

theorem time_data_buckets_witness :
    (2016 : Int) ∈ (time_data sampleStore).map Prod.fst :=
  ((time_data_buckets sampleStore).2.2 2016).mpr (by decide)

/-- Claim C6 fails on the code: a single unparseable `date_added` cell
makes the columnar `pd.to_datetime` (default `errors='raise'`) raise,
aborting the entire load instead of loading the row with the field marked
missing. -/
theorem load_data_aborts_on_malformed_date :
    load_data [{ show_id := "s1", kind := some "Movie", country := some "US",
                 release_year := 2020, date_added := RawDate.malformed "not a date" }] =
      Except.error "not a date" := rfl

/-- Claim C6 (amended): rows with a missing `date_added` load with the
field set to the explicit missing marker — never a sentinel value — and
every other field carried over verbatim; but any row with an unparseable
`date_added` aborts the whole load with an error rather than being
recovered locally. -/
theorem load_data_missing_marker_or_abort :
    (∀ rows : List RawRow,
      (∀ row ∈ rows, row.date_added.failsParse = false) →
      load_data rows =
        Except.ok (rows.map (fun row => toRecord row (parsedDate row.date_added)))) ∧
    (∀ (rows : List RawRow) (row : RawRow),
      row ∈ rows → row.date_added.failsParse = true →
      ∃ e, load_data rows = Except.error e) := by
  constructor
  · intro rows h
    induction rows with
    | nil => rfl
    | cons row rest ih =>
      have hrow := h row (List.mem_cons_self row rest)
      have hrest := ih (fun r hr => h r (List.mem_cons_of_mem row hr))
      cases hd : row.date_added with
      | missing => simp [load_data, to_datetime, hd, hrest, parsedDate]
      | valid d => simp [load_data, to_datetime, hd, hrest, parsedDate]
      | malformed s => rw [hd] at hrow; exact absurd hrow (by simp [RawDate.failsParse])
  · intro rows row hmem hmal
    induction rows with
    | nil => cases hmem
    | cons r rest ih =>
      rcases List.mem_cons.mp hmem with rfl | hmem'
      · cases hd : row.date_added with
        | missing => rw [hd] at hmal; exact absurd hmal (by simp [RawDate.failsParse])
        | valid d => rw [hd] at hmal; exact absurd hmal (by simp [RawDate.failsParse])
        | malformed s => exact ⟨s, by simp [load_data, to_datetime, hd]⟩
      · cases hd : to_datetime r.date_added with
        | error e => exact ⟨e, by simp [load_data, hd]⟩
        | ok d =>
          obtain ⟨e, he⟩ := ih hmem'
          exact ⟨e, by simp [load_data, hd, he]⟩

theorem load_data_missing_marker_or_abort_witness :
    load_data [{ show_id := "s2", kind := some "Movie", country := some "UK",
                 release_year := 2015, date_added := RawDate.missing }] =
      Except.ok [{ show_id := "s2", kind := some "Movie", country := some "UK",
                   release_year := 2015, date_added := none }] :=
  load_data_missing_marker_or_abort.1
    [{ show_id := "s2", kind := some "Movie", country := some "UK",
       release_year := 2015, date_added := RawDate.missing }] (by decide)

/-- Claim C10: `make_donut` succeeds for every colour name — names outside
the four themes fall back to the blue palette — and the two foreground arc
weights sum to exactly 100 for every input percentage. -/
theorem make_donut_total :
    (∀ (resp : Int) (t c : String),
      ((make_donut resp t c).arcs.map Prod.snd).sum = 100) ∧
    (∀ (resp : Int) (t c : String),
      c ≠ "blue" → c ≠ "green" → c ≠ "orange" → c ≠ "red" →
      (make_donut resp t c).chart_color = ["#29b5e8", "#155F7A"]) := by
  constructor
  · intro resp t c
    simp [make_donut]
  · intro resp t c h1 h2 h3 h4
    have e1 : (c == "blue") = false := beq_eq_false_iff_ne.mpr h1
    have e2 : (c == "green") = false := beq_eq_false_iff_ne.mpr h2
    have e3 : (c == "orange") = false := beq_eq_false_iff_ne.mpr h3
    have e4 : (c == "red") = false := beq_eq_false_iff_ne.mpr h4
    simp [make_donut, chart_colors, List.lookup, e1, e2, e3, e4]

theorem make_donut_total_witness :
    (make_donut 37 "Year" "purple").chart_color = ["#29b5e8", "#155F7A"] :=
  make_donut_total.2 37 "Year" "purple" (by decide) (by decide) (by decide) (by decide)

end NetflixStream
